import Mathlib

/-!
Verification of the completeness analysis engine of bemserver-core.

The engine (`bemserver_core/process/completeness.py`) is exercised by the
repository's tests (`tests/process/test_completeness.py`,
`tests/analysis/test_completeness.py`) but its own source file is not part
of the source tree given here, so the definitions below are modelled from
the specification, with every behavioural detail cross-checked against the
exact values asserted by the repository's tests.  Where the specification's
prose and the tests disagree (bucket-duration clipping, the interval
estimation rule), the definitions follow the tests, since they pin the
engine's observable behaviour numerically.

Modelling conventions:
  * instants are absolute seconds since 1970-01-01T00:00:00 UTC, as `ℤ`;
    the engine is modelled in the UTC zone (all repository tests for the
    numeric claims run in UTC; DST is out of scope of this embedding);
  * Python floats are modelled as exact rationals `ℚ`;
  * Python `None` is `Option.none`;
  * the timeseries store (an external collaborator per the spec) is a
    function from series id and data-state id to the list of stored
    sample timestamps.
-/

namespace BemCore

/-! ## Calendar arithmetic (proleptic Gregorian, UTC) -/

/-- Gregorian leap-year predicate. -/
def isLeap (y : ℤ) : Bool := y % 4 == 0 && (y % 100 != 0 || y % 400 == 0)

/-- Cumulative days before month `m` (1-12) in a non-leap year. -/
def cumDays : ℕ → ℕ
  | 1 => 0 | 2 => 31 | 3 => 59 | 4 => 90 | 5 => 120 | 6 => 151
  | 7 => 181 | 8 => 212 | 9 => 243 | 10 => 273 | 11 => 304 | 12 => 334
  | _ => 0

/-- Days in year `y` strictly before the first day of month `m` (1-12). -/
def daysBeforeMonth (y : ℤ) (m : ℕ) : ℤ :=
  (cumDays m : ℤ) + (if 3 ≤ m ∧ isLeap y then 1 else 0)

/-- Number of days in month `m` (1-12) of year `y`. -/
def daysInMonth (y : ℤ) (m : ℕ) : ℤ :=
  if m = 2 then (if isLeap y then 29 else 28)
  else if m = 4 ∨ m = 6 ∨ m = 9 ∨ m = 11 then 30 else 31

/-- Number of leap years strictly before year `y`. -/
def leapsBefore (y : ℤ) : ℤ := (y - 1) / 4 - (y - 1) / 100 + (y - 1) / 400

/-- Days from 1970-01-01 to the first day of year `y` (negative before 1970). -/
def daysBeforeYear (y : ℤ) : ℤ := 365 * (y - 1970) + (leapsBefore y - leapsBefore 1970)

/-- Day number (days since 1970-01-01) of the civil date `y-m-d`. -/
def daysFromCivil (y : ℤ) (m d : ℕ) : ℤ :=
  daysBeforeYear y + daysBeforeMonth y m + ((d : ℤ) - 1)

/-- A timezone-aware instant in the UTC zone, as carried by the Python
`datetime` values the engine receives. -/
structure DateTime where
  year : ℤ
  month : ℕ
  day : ℕ
  hour : ℕ
  minute : ℕ
  sec : ℕ
deriving DecidableEq

/-- Absolute seconds since the 1970 epoch of a civil UTC instant. -/
def DateTime.toSec (t : DateTime) : ℤ :=
  86400 * daysFromCivil t.year t.month t.day
    + 3600 * (t.hour : ℤ) + 60 * (t.minute : ℤ) + (t.sec : ℤ)

/-- Well-formedness of a civil instant. -/
def DateTime.Valid (t : DateTime) : Prop :=
  1 ≤ t.month ∧ t.month ≤ 12 ∧ 1 ≤ t.day ∧ (t.day : ℤ) ≤ daysInMonth t.year t.month
    ∧ t.hour < 24 ∧ t.minute < 60 ∧ t.sec < 60

instance (t : DateTime) : Decidable t.Valid := by
  unfold DateTime.Valid
  infer_instance

/-! ### Euclidean division helpers -/

theorem ediv_emod_uniq {d q r a : ℤ} (hd : 0 < d) (h : a = d * q + r)
    (h0 : 0 ≤ r) (h1 : r < d) : a / d = q ∧ a % d = r := by
  have hq : a / d = q := by
    rw [h, add_comm, Int.add_mul_ediv_left r q (ne_of_gt hd),
      Int.ediv_eq_zero_of_lt h0 h1, zero_add]
  refine ⟨hq, ?_⟩
  rw [Int.emod_def, hq, h]; ring

theorem ediv_succ_sub (y d : ℤ) (hd : 0 < d) :
    y / d - (y - 1) / d = if d ∣ y then 1 else 0 := by
  have hmod0 : 0 ≤ y % d := Int.emod_nonneg y (ne_of_gt hd)
  have hmodlt : y % d < d := Int.emod_lt_of_pos y hd
  have hy : y = d * (y / d) + y % d := (Int.ediv_add_emod y d).symm
  by_cases hdvd : d ∣ y
  · have hz : y % d = 0 := Int.emod_eq_zero_of_dvd hdvd
    have : y - 1 = d * (y / d - 1) + (d - 1) := by
      rw [mul_sub, mul_one]; omega
    have h2 := ediv_emod_uniq hd this (by omega) (by omega)
    simp [hdvd, h2.1]
  · have hz : y % d ≠ 0 := fun hc => hdvd (Int.dvd_of_emod_eq_zero hc)
    have : y - 1 = d * (y / d) + (y % d - 1) := by omega
    have h2 := ediv_emod_uniq hd this (by omega) (by omega)
    simp [hdvd, h2.1]

theorem isLeap_iff (y : ℤ) :
    isLeap y = true ↔ ((4 : ℤ) ∣ y ∧ (¬ (100 : ℤ) ∣ y ∨ (400 : ℤ) ∣ y)) := by
  simp only [isLeap, Bool.and_eq_true, Bool.or_eq_true, beq_iff_eq, bne_iff_ne, ne_eq,
    Int.dvd_iff_emod_eq_zero]

theorem daysBeforeYear_succ (y : ℤ) :
    daysBeforeYear (y + 1) = daysBeforeYear y + (if isLeap y then 366 else 365) := by
  have h4 := ediv_succ_sub y 4 (by norm_num)
  have h100 := ediv_succ_sub y 100 (by norm_num)
  have h400 := ediv_succ_sub y 400 (by norm_num)
  have hly := isLeap_iff y
  have hd1 : ((400 : ℤ) ∣ y) → ((100 : ℤ) ∣ y) := fun h => dvd_trans (by norm_num) h
  have hd2 : ((100 : ℤ) ∣ y) → ((4 : ℤ) ∣ y) := fun h => dvd_trans (by norm_num) h
  unfold daysBeforeYear leapsBefore
  have e1 : y + 1 - 1 = y := by ring
  rw [e1]
  by_cases c4 : (4 : ℤ) ∣ y
  · rw [if_pos c4] at h4
    by_cases c100 : (100 : ℤ) ∣ y
    · rw [if_pos c100] at h100
      by_cases c400 : (400 : ℤ) ∣ y
      · rw [if_pos c400] at h400
        rw [if_pos (hly.mpr ⟨c4, Or.inr c400⟩)]
        omega
      · rw [if_neg c400] at h400
        have hnl : ¬ isLeap y = true := by
          intro hc
          rcases (hly.mp hc) with ⟨_, h2 | h2⟩
          · exact h2 c100
          · exact c400 h2
        rw [if_neg hnl]
        omega
    · have c400 : ¬ (400 : ℤ) ∣ y := fun h => c100 (hd1 h)
      rw [if_neg c100] at h100
      rw [if_neg c400] at h400
      rw [if_pos (hly.mpr ⟨c4, Or.inl c100⟩)]
      omega
  · have c100 : ¬ (100 : ℤ) ∣ y := fun h => c4 (hd2 h)
    have c400 : ¬ (400 : ℤ) ∣ y := fun h => c100 (hd1 h)
    rw [if_neg c4] at h4
    rw [if_neg c100] at h100
    rw [if_neg c400] at h400
    have hnl : ¬ isLeap y = true := fun hc => c4 (hly.mp hc).1
    rw [if_neg hnl]
    omega

/-! ### Month-start arithmetic

Months are indexed globally: month index `mi` denotes month `mi % 12 + 1`
of year `mi / 12`, so month arithmetic is plain integer arithmetic. -/

/-- Day number of the first day of globally-indexed month `mi`. -/
def monthStartDays (mi : ℤ) : ℤ :=
  daysBeforeYear (mi / 12) + daysBeforeMonth (mi / 12) ((mi % 12).toNat + 1)

/-- Second of the first instant of globally-indexed month `mi`. -/
def monthStartSec (mi : ℤ) : ℤ := 86400 * monthStartDays mi

theorem daysInMonth_bounds (y : ℤ) (m : ℕ) :
    28 ≤ daysInMonth y m ∧ daysInMonth y m ≤ 31 := by
  unfold daysInMonth
  split
  · split <;> norm_num
  · split <;> norm_num

theorem monthStartDays_succ (mi : ℤ) :
    monthStartDays (mi + 1)
      = monthStartDays mi + daysInMonth (mi / 12) ((mi % 12).toNat + 1) := by
  have hq := Int.ediv_add_emod mi 12
  have hr0 : 0 ≤ mi % 12 := Int.emod_nonneg mi (by norm_num)
  have hr1 : mi % 12 < 12 := Int.emod_lt_of_pos mi (by norm_num)
  set q := mi / 12 with hqdef
  set r := mi % 12 with hrdef
  by_cases hcase : r < 11
  · have huniq := ediv_emod_uniq (d := 12) (q := q) (r := r + 1) (a := mi + 1)
      (by norm_num) (by omega) (by omega) (by omega)
    unfold monthStartDays
    rw [huniq.1, huniq.2, ← hqdef, ← hrdef]
    have hrt : (r + 1).toNat = r.toNat + 1 := by omega
    rw [hrt]
    have hgoal : ∀ rn : ℕ, rn ≤ 10 →
        daysBeforeMonth q (rn + 1 + 1) = daysBeforeMonth q (rn + 1) + daysInMonth q (rn + 1) := by
      intro rn hrn
      interval_cases rn <;>
        cases hl : isLeap q <;>
          simp [daysBeforeMonth, daysInMonth, cumDays, hl]
    have := hgoal r.toNat (by omega)
    omega
  · have hr11 : r = 11 := by omega
    have huniq := ediv_emod_uniq (d := 12) (q := q + 1) (r := 0) (a := mi + 1)
      (by norm_num) (by omega) (by omega) (by omega)
    unfold monthStartDays
    rw [huniq.1, huniq.2, ← hqdef, ← hrdef, hr11]
    have hy := daysBeforeYear_succ q
    cases hl : isLeap q <;>
      simp [daysBeforeMonth, daysInMonth, cumDays, hl] at hy ⊢ <;> omega

theorem monthStartDays_add_ge (mi : ℤ) (k : ℕ) :
    monthStartDays mi + 28 * k ≤ monthStartDays (mi + k) := by
  induction k with
  | zero => simp
  | succ n ih =>
    have hs := monthStartDays_succ (mi + n)
    have hb := daysInMonth_bounds ((mi + n) / 12) (((mi + n) % 12).toNat + 1)
    have : (mi : ℤ) + (n + 1 : ℕ) = (mi + n) + 1 := by push_cast; ring
    rw [this, hs]
    push_cast
    push_cast at ih
    omega

/-! ## Bucket grid generator

Modelled from the spec: `gen_seconds_per_bucket(start_dt, end_dt,
bucket_width_value, bucket_width_unit, timezone)` of
`bemserver_core/process/completeness.py` (absent from the given sources),
in the UTC zone.  Fixed-width units lay a regular grid starting exactly at
`start`; calendar units snap the first boundary down to the canonical unit
start and advance one multiplier-worth of calendar units at a time while
the boundary lies before `end`.  Bucket durations are the spans between
consecutive grid boundaries clipped to the caller's `[start, end)` range
at both ends, which is the behaviour the repository's tests assert
(partial first and last buckets receive their reduced spans). -/

inductive BucketUnit
  | second | minute | hour | day | week | month | year
deriving DecidableEq

/-- Grid indices advanced by the generator: for fixed-width units the index
is the boundary second itself, for weeks a day number, for months and
years a global month index. -/
def idxSec (unit : BucketUnit) : ℤ → ℤ :=
  match unit with
  | .week => fun d => 86400 * d
  | .month => monthStartSec
  | .year => monthStartSec
  | _ => fun s => s

/-- Weekday of a day number, 0 = Monday (1970-01-01 was a Thursday). -/
def weekdayOfDay (d : ℤ) : ℤ := (d + 3) % 7

/-- Day number of the most recent Monday at/before the given instant. -/
def weekFloorDay (s : ℤ) : ℤ := (s / 86400) - weekdayOfDay (s / 86400)

/-- First grid index: the caller's start for fixed-width units, the snapped
canonical unit start for calendar units. -/
def startIdx (start : DateTime) (unit : BucketUnit) : ℤ :=
  match unit with
  | .week => weekFloorDay start.toSec
  | .month => 12 * start.year + ((start.month : ℤ) - 1)
  | .year => 12 * start.year
  | _ => start.toSec

/-- Index increment per bucket for multiplier `mult`. -/
def idxStep (mult : ℕ) (unit : BucketUnit) : ℤ :=
  match unit with
  | .second => mult
  | .minute => 60 * mult
  | .hour => 3600 * mult
  | .day => 86400 * mult
  | .week => 7 * mult
  | .month => mult
  | .year => 12 * mult

/-- A lower bound, in seconds, on the span of one bucket of the given unit
(28-day months; a year advances as 12 months). -/
def unitMinStepSec (unit : BucketUnit) : ℤ :=
  match unit with
  | .second => 1
  | .minute => 60
  | .hour => 3600
  | .day => 86400
  | .week => 604800
  | .month => 2419200
  | .year => 29030400

/-- Grid boundary enumeration: emit boundaries while they precede `endSec`. -/
def genCalAux (secOf : ℤ → ℤ) (endSec stp : ℤ) : ℕ → ℤ → List ℤ
  | 0, _ => []
  | f + 1, idx =>
      if secOf idx < endSec then secOf idx :: genCalAux secOf endSec stp f (idx + stp)
      else []

/-- Fuel that provably suffices for the enumeration to reach `endSec`. -/
def bucketFuel (start endd : DateTime) (mult : ℕ) (unit : BucketUnit) : ℕ :=
  ((endd.toSec - idxSec unit (startIdx start unit)).toNat
      / ((mult : ℤ) * unitMinStepSec unit).toNat) + 2

/-- Ordered bucket start instants of the grid. -/
def bucketStarts (start endd : DateTime) (mult : ℕ) (unit : BucketUnit) : List ℤ :=
  genCalAux (idxSec unit) endd.toSec (idxStep mult unit)
    (bucketFuel start endd mult unit) (startIdx start unit)

/-- Per-bucket half-open count/duration windows, clipped to the caller's
range: the first window starts at the caller's `start`, the last ends at
the caller's `end`. -/
def windows (startSec endSec : ℤ) : List ℤ → List (ℤ × ℤ)
  | [] => []
  | _ :: t => (startSec :: t).zip (t ++ [endSec])

/-- Bucket durations in seconds (the values of the pandas Series returned
by `gen_seconds_per_bucket`, the boundaries being its index). -/
def durationsOf (startSec endSec : ℤ) (bs : List ℤ) : List ℤ :=
  (windows startSec endSec bs).map (fun w => w.2 - w.1)

/-! ### Structural lemmas about the grid -/

theorem genCalAux_mem_lt (secOf : ℤ → ℤ) (endSec stp : ℤ) :
    ∀ (f : ℕ) (idx : ℤ), ∀ b ∈ genCalAux secOf endSec stp f idx, b < endSec := by
  intro f
  induction f with
  | zero => intro idx b hb; simp [genCalAux] at hb
  | succ n ih =>
    intro idx b hb
    unfold genCalAux at hb
    by_cases hc : secOf idx < endSec
    · rw [if_pos hc] at hb
      rcases List.mem_cons.mp hb with h | h
      · omega
      · exact ih (idx + stp) b h
    · rw [if_neg hc] at hb
      simp at hb

theorem genCalAux_head (secOf : ℤ → ℤ) (endSec stp : ℤ) (f : ℕ) (idx : ℤ)
    (hc : secOf idx < endSec) :
    (genCalAux secOf endSec stp (f + 1) idx).head? = some (secOf idx) := by
  unfold genCalAux
  rw [if_pos hc]
  rfl

theorem genCalAux_ne_nil (secOf : ℤ → ℤ) (endSec stp : ℤ) (f : ℕ) (idx : ℤ)
    (hc : secOf idx < endSec) :
    genCalAux secOf endSec stp (f + 1) idx ≠ [] := by
  unfold genCalAux
  rw [if_pos hc]
  simp

theorem genCalAux_getD (secOf : ℤ → ℤ) (endSec stp : ℤ) :
    ∀ (f : ℕ) (idx : ℤ) (i : ℕ), i < (genCalAux secOf endSec stp f idx).length →
      (genCalAux secOf endSec stp f idx).getD i 0 = secOf (idx + stp * i) := by
  intro f
  induction f with
  | zero => intro idx i hi; simp [genCalAux] at hi
  | succ n ih =>
    intro idx i hi
    unfold genCalAux at hi ⊢
    by_cases hc : secOf idx < endSec
    · rw [if_pos hc] at hi ⊢
      match i with
      | 0 => simp
      | i + 1 =>
        simp only [List.length_cons, Nat.add_lt_add_iff_right] at hi
        simp only [List.getD_cons_succ]
        rw [ih (idx + stp) i hi]
        congr 1
        push_cast
        ring
    · rw [if_neg hc] at hi
      simp at hi

theorem genCalAux_reach (secOf : ℤ → ℤ) (endSec stp g : ℤ)
    (hgrow : ∀ i : ℤ, secOf i + g ≤ secOf (i + stp)) :
    ∀ (F : ℕ) (idx : ℤ), endSec ≤ secOf idx + g * F →
      endSec ≤ secOf (idx + stp * (genCalAux secOf endSec stp (F + 1) idx).length) := by
  intro F
  induction F with
  | zero =>
    intro idx hF
    simp only [Nat.cast_zero, mul_zero, add_zero] at hF
    unfold genCalAux
    rw [if_neg (by omega)]
    simpa using hF
  | succ n ih =>
    intro idx hF
    by_cases hc : secOf idx < endSec
    · have hstep : genCalAux secOf endSec stp (n + 1 + 1) idx
          = secOf idx :: genCalAux secOf endSec stp (n + 1) (idx + stp) := by
        conv_lhs => unfold genCalAux
        rw [if_pos hc]
      have hnext : endSec ≤ secOf (idx + stp) + g * n := by
        have h1 := hgrow idx
        have h2 : g * (((n : ℕ) + 1 : ℕ) : ℤ) = g * (n : ℤ) + g := by push_cast; ring
        rw [h2] at hF
        linarith
      have := ih (idx + stp) hnext
      rw [hstep]
      simp only [List.length_cons]
      have harg : idx + stp * ((genCalAux secOf endSec stp (n + 1) (idx + stp)).length + 1 : ℕ)
          = (idx + stp) + stp * (genCalAux secOf endSec stp (n + 1) (idx + stp)).length := by
        push_cast
        ring
      rw [harg]
      exact this
    · have : genCalAux secOf endSec stp (n + 1 + 1) idx = [] := by
        unfold genCalAux
        rw [if_neg hc]
      rw [this]
      simp
      omega

theorem genCalAux_mem_ge_id (endSec stp : ℤ) (hstp : 0 ≤ stp) :
    ∀ (f : ℕ) (idx : ℤ), ∀ b ∈ genCalAux (fun s => s) endSec stp f idx, idx ≤ b := by
  intro f
  induction f with
  | zero => intro idx b hb; simp [genCalAux] at hb
  | succ n ih =>
    intro idx b hb
    unfold genCalAux at hb
    by_cases hc : idx < endSec
    · rw [if_pos hc] at hb
      rcases List.mem_cons.mp hb with h | h
      · omega
      · have := ih (idx + stp) b h
        omega
    · rw [if_neg hc] at hb
      simp at hb

theorem sum_zip_sub (e : ℤ) :
    ∀ (t : List ℤ) (s : ℤ),
      ((((s :: t).zip (t ++ [e])).map (fun w => w.2 - w.1)).sum) = e - s := by
  intro t
  induction t with
  | nil => intro s; simp
  | cons b t' ih =>
    intro s
    simp only [List.cons_append, List.zip_cons_cons, List.map_cons, List.sum_cons]
    rw [ih b]
    ring

theorem durationsOf_sum (startSec endSec : ℤ) (bs : List ℤ) (hne : bs ≠ []) :
    (durationsOf startSec endSec bs).sum = endSec - startSec := by
  match bs with
  | [] => exact absurd rfl hne
  | b :: t =>
    unfold durationsOf windows
    exact sum_zip_sub endSec t startSec

theorem fuel_le_reach (x g : ℤ) (hg : 0 < g) :
    x ≤ g * ((x.toNat / g.toNat) + 1 : ℕ) := by
  by_cases hx : x ≤ 0
  · have : (0 : ℤ) < g * ((x.toNat / g.toNat) + 1 : ℕ) := by
      apply mul_pos hg
      push_cast
      positivity
    omega
  · push_neg at hx
    have hgN : 0 < g.toNat := by omega
    have hmod := Nat.div_add_mod x.toNat g.toNat
    have hlt : x.toNat % g.toNat < g.toNat := Nat.mod_lt _ hgN
    have hxN : x.toNat < g.toNat * (x.toNat / g.toNat) + g.toNat := by omega
    have hcast : (x.toNat : ℤ) < (g.toNat : ℤ) * ((x.toNat / g.toNat : ℕ) : ℤ) + g.toNat := by
      exact_mod_cast hxN
    have hxx : (x.toNat : ℤ) = x := Int.toNat_of_nonneg (by omega)
    have hgg : (g.toNat : ℤ) = g := Int.toNat_of_nonneg (by omega)
    rw [hxx, hgg] at hcast
    rw [Nat.cast_add, Nat.cast_one, mul_add, mul_one]
    linarith

/-! ## Completeness calculator

Modelled from the spec: `compute_completeness(start_dt, end_dt, timeseries,
data_state, bucket_width_value, bucket_width_unit, timezone="UTC")` of
`bemserver_core/process/completeness.py` (absent from the given sources).
The timeseries store and the declared-interval property lookup are the
external collaborators of section 6 of the spec; the store is modelled as
a function giving the sample timestamps of a series at a data state, and
the declared interval as a field of the series (spec section 9 sanctions
a plain typed lookup).  The per-series sampling interval, when the series
declares none, is estimated from the per-bucket counts as the minimum over
non-empty buckets of `bucket_duration / count`, which is the rule the
repository's tests pin down numerically (for the test data of
`test_compute_completeness`, monthly buckets give `2505600/5827 =
429.9982838510383` and daily buckets give `86400/201 =
429.85074626865674`, both asserted by the tests; the spec's prose of a
mean inter-sample gap would give a different value). -/

/-- A timeseries, with its declared `Interval` property when present. -/
structure Timeseries where
  id : ℕ
  name : String
  declaredInterval : Option ℚ
deriving DecidableEq

/-- The external timeseries store: series id and data-state id to the list
of stored sample timestamps. -/
abbrev Store := ℕ → ℕ → List ℤ

/-- Count of stored samples falling in a half-open window. -/
def countWindow (data : List ℤ) (w : ℤ × ℤ) : ℕ :=
  data.countP (fun t => decide (w.1 ≤ t) && decide (t < w.2))

/-- Per-bucket observed sample counts (the store's grouped-count query). -/
def bucketCounts (ws : List (ℤ × ℤ)) (data : List ℤ) : List ℕ :=
  ws.map (countWindow data)

/-- The per-bucket interval candidates `bucket_duration / count` over the
buckets with a nonzero count; the estimated interval is their minimum. -/
def intervalCandidates (ws : List (ℤ × ℤ)) (counts : List ℕ) : List ℚ :=
  ((ws.map (fun w => ((w.2 - w.1 : ℤ) : ℚ))).zip counts).filterMap
    (fun p => if p.2 = 0 then none else some (p.1 / (p.2 : ℚ)))

/-- Minimum of a list of rationals, `none` on the empty list. -/
def listMinQ : List ℚ → Option ℚ
  | [] => none
  | x :: t =>
      match listMinQ t with
      | none => some x
      | some m => some (min x m)

/-- Per-series completeness report.  Python `None` is `none`; the Python
float fields are exact rationals here.  Field name mapping to the Python
report keys: `ratios` is `ratio`, `ratioAvg` is `avg_ratio`. -/
structure SeriesReport where
  name : String
  count : List ℕ
  total_count : ℕ
  avg_count : ℚ
  interval : Option ℚ
  undefined_interval : Bool
  expected_count : List (Option ℚ)
  ratios : List (Option ℚ)
  ratioAvg : Option ℚ
deriving DecidableEq

/-- Assemble one series' report from the per-bucket windows and counts. -/
def seriesStats (ts : Timeseries) (ws : List (ℤ × ℤ)) (counts : List ℕ) : SeriesReport :=
  let durs : List ℚ := ws.map (fun w => ((w.2 - w.1 : ℤ) : ℚ))
  let total := counts.sum
  let interval : Option ℚ :=
    match ts.declaredInterval with
    | some v => some v
    | none => listMinQ (intervalCandidates ws counts)
  let expected : List (Option ℚ) := durs.map (fun d => interval.map (fun i => d / i))
  let ratios : List (Option ℚ) :=
    (counts.zip expected).map
      (fun p => p.2.bind (fun e => if e = 0 then none else some ((p.1 : ℚ) / e)))
  let defined := ratios.filterMap id
  { name := ts.name
    count := counts
    total_count := total
    avg_count := (total : ℚ) / (ws.length : ℚ)
    interval := interval
    undefined_interval := ts.declaredInterval.isNone
    expected_count := expected
    ratios := ratios
    ratioAvg := if defined = [] then none else some (defined.sum / (defined.length : ℚ)) }

/-- The whole report of the explicit `(multiplier, unit)` call convention:
series keyed by identifier (the Python version uses underscore-joined
field labels). -/
structure Report where
  timestamps : List ℤ
  timeseries : List (ℕ × SeriesReport)
deriving DecidableEq

/-- Unrecognized bucket unit or non-positive multiplier (the spec's
`InvalidPeriodError`). -/
inductive CompletenessError
  | invalidPeriod
deriving DecidableEq

instance {e a : Type} [DecidableEq e] [DecidableEq a] : DecidableEq (Except e a) := fun x y =>
  match x, y with
  | .error u, .error v =>
      if h : u = v then isTrue (by rw [h]) else isFalse (by intro hc; cases hc; exact h rfl)
  | .error _, .ok _ => isFalse (by intro hc; cases hc)
  | .ok _, .error _ => isFalse (by intro hc; cases hc)
  | .ok u, .ok v =>
      if h : u = v then isTrue (by rw [h]) else isFalse (by intro hc; cases hc; exact h rfl)

/-- The completeness engine, explicit `(multiplier, unit)` convention.
The multiplier is a natural number here, so the spec's "multiplier <= 0"
failure is the `mult = 0` case. -/
def compute_completeness (start endd : DateTime) (tsl : List Timeseries)
    (dataState : ℕ) (mult : ℕ) (unit : BucketUnit) (store : Store) :
    Except CompletenessError Report :=
  if mult = 0 then .error .invalidPeriod
  else
    let bs := bucketStarts start endd mult unit
    let ws := windows start.toSec endd.toSec bs
    .ok { timestamps := bs
          timeseries := tsl.map
            (fun ts => (ts.id, seriesStats ts ws (bucketCounts ws (store ts.id dataState)))) }

/-- Split a character list on single spaces. -/
def splitOnSpace : List Char → List Char → List (List Char)
  | [], acc => [acc.reverse]
  | c :: rest, acc =>
      if c = ' ' then acc.reverse :: splitOnSpace rest []
      else splitOnSpace rest (c :: acc)

/-- Parse a decimal digit sequence, failing on a non-digit. -/
def parseNatAux : List Char → ℕ → Option ℕ
  | [], acc => some acc
  | c :: rest, acc =>
      if '0' ≤ c ∧ c ≤ '9' then parseNatAux rest (acc * 10 + (c.toNat - '0'.toNat))
      else none

/-- Parse a non-empty decimal digit sequence. -/
def parseNat? : List Char → Option ℕ
  | [] => none
  | c :: rest => parseNatAux (c :: rest) 0

/-- Bucket unit names accepted by the period-string call convention. -/
def parseUnit (cs : List Char) : Option BucketUnit :=
  if cs = "second".data then some .second
  else if cs = "minute".data then some .minute
  else if cs = "hour".data then some .hour
  else if cs = "day".data then some .day
  else if cs = "week".data then some .week
  else if cs = "month".data then some .month
  else if cs = "year".data then some .year
  else none

/-- Parse a human-readable period string such as `1 month`. -/
def parsePeriod (s : String) : Option (ℕ × BucketUnit) :=
  match splitOnSpace s.data [] with
  | [v, u] =>
      match parseNat? v, parseUnit u with
      | some m, some bu => some (m, bu)
      | _, _ => none
  | _ => none

/-- The whole report of the period-string call convention: series keyed by
display name (the Python version uses spaced field labels). -/
structure NamedReport where
  timestamps : List ℤ
  timeseries : List (String × SeriesReport)
deriving DecidableEq

/-- The completeness engine, period-string convention (the historical
`compute_completeness(start, end, timeseries, data_state, "1 month")`
call sites): parses the period then runs the same computation, keying the
output by series name. -/
def compute_completeness_period (start endd : DateTime) (tsl : List Timeseries)
    (dataState : ℕ) (period : String) (store : Store) :
    Except CompletenessError NamedReport :=
  match parsePeriod period with
  | none => .error .invalidPeriod
  | some (mult, unit) =>
      if mult = 0 then .error .invalidPeriod
      else
        let bs := bucketStarts start endd mult unit
        let ws := windows start.toSec endd.toSec bs
        .ok { timestamps := bs
              timeseries := tsl.map
                (fun ts => (ts.name, seriesStats ts ws (bucketCounts ws (store ts.id dataState)))) }

/-! ### Counting regularly-spaced samples

The repository tests materialize their fixtures with
`pd.date_range(start, end, freq=...)`: regularly spaced timestamps.  The
following closed form for `countWindow` over such a list lets the large
end-to-end fixture (8640 ten-minute samples over two months) be evaluated
without unfolding the 8640-element list. -/

/-- The sample timestamps `t0, t0+step, ...` (`n` of them), as produced by
the test fixtures' `pd.date_range` calls. -/
def sampleList (t0 step : ℤ) (n : ℕ) : List ℤ :=
  (List.range n).map (fun k : ℕ => t0 + step * (k : ℤ))

theorem countP_range_band (a b : ℕ) :
    ∀ n : ℕ, (List.range n).countP (fun k => decide (a ≤ k) && decide (k < b))
      = min n b - min n a := by
  intro n
  induction n with
  | zero => simp
  | succ m ih =>
    rw [List.range_succ, List.countP_append]
    simp only [List.countP_cons, List.countP_nil]
    rw [ih]
    by_cases h1 : a ≤ m <;> by_cases h2 : m < b <;> simp [h1, h2] <;> omega

theorem le_sample_iff (t0 step lo : ℤ) (hs : 0 < step) (k : ℕ) :
    lo ≤ t0 + step * k ↔ ((lo - t0 + step - 1) / step).toNat ≤ k := by
  rw [Int.toNat_le]
  have hmc : ((k : ℤ) + 1) * step = step * k + step := by ring
  constructor
  · intro h
    have h2 : (lo - t0 + step - 1) / step < (k : ℤ) + 1 := by
      rw [Int.ediv_lt_iff_lt_mul hs, hmc]
      linarith
    omega
  · intro h
    have h2 : (lo - t0 + step - 1) / step < (k : ℤ) + 1 := by omega
    rw [Int.ediv_lt_iff_lt_mul hs, hmc] at h2
    linarith

theorem sample_lt_iff (t0 step hi : ℤ) (hs : 0 < step) (k : ℕ) :
    t0 + step * k < hi ↔ k < ((hi - t0 + step - 1) / step).toNat := by
  rw [Int.lt_toNat]
  have hmc : ((k : ℤ) + 1) * step = step * k + step := by ring
  constructor
  · intro h
    have h2 : (k : ℤ) + 1 ≤ (hi - t0 + step - 1) / step := by
      rw [Int.le_ediv_iff_mul_le hs, hmc]
      linarith
    omega
  · intro h
    have h2 : (k : ℤ) + 1 ≤ (hi - t0 + step - 1) / step := by omega
    rw [Int.le_ediv_iff_mul_le hs, hmc] at h2
    linarith

theorem countWindow_sampleList (t0 step : ℤ) (n : ℕ) (lo hi : ℤ) (hs : 0 < step) :
    countWindow (sampleList t0 step n) (lo, hi)
      = min n ((hi - t0 + step - 1) / step).toNat
        - min n ((lo - t0 + step - 1) / step).toNat := by
  have hpred : ((fun t => decide (lo ≤ t) && decide (t < hi)) ∘ (fun k : ℕ => t0 + step * (k : ℤ)))
      = (fun k : ℕ => decide (((lo - t0 + step - 1) / step).toNat ≤ k)
          && decide (k < ((hi - t0 + step - 1) / step).toNat)) := by
    funext k
    simp only [Function.comp]
    rw [decide_eq_decide.mpr (le_sample_iff t0 step lo hs k),
      decide_eq_decide.mpr (sample_lt_iff t0 step hi hs k)]
  have hw := List.countP_map (fun t => decide (lo ≤ t) && decide (t < hi))
    (fun k : ℕ => t0 + step * (k : ℤ)) (List.range n)
  calc countWindow (sampleList t0 step n) (lo, hi)
      = List.countP (fun t => decide (lo ≤ t) && decide (t < hi))
          (List.map (fun k : ℕ => t0 + step * (k : ℤ)) (List.range n)) := by
        unfold countWindow sampleList
        rfl
    _ = (List.range n).countP ((fun t => decide (lo ≤ t) && decide (t < hi))
          ∘ (fun k : ℕ => t0 + step * (k : ℤ))) := hw
    _ = min n ((hi - t0 + step - 1) / step).toNat
        - min n ((lo - t0 + step - 1) / step).toNat := by
        rw [hpred, countP_range_band]

/-! ### Snapping and non-emptiness of the grid -/

/-- The fixed-width bucket units. -/
def FixedUnit (u : BucketUnit) : Prop :=
  u = .second ∨ u = .minute ∨ u = .hour ∨ u = .day

/-- The calendar bucket units. -/
def CalUnit (u : BucketUnit) : Prop :=
  u = .week ∨ u = .month ∨ u = .year

theorem daysBeforeMonth_nonneg (y : ℤ) (m : ℕ) : 0 ≤ daysBeforeMonth y m := by
  have hc : (0 : ℤ) ≤ (cumDays m : ℤ) := Nat.cast_nonneg _
  unfold daysBeforeMonth
  split <;> omega

/-- The first grid boundary never lies after the caller's start. -/
theorem snap_le (start : DateTime) (unit : BucketUnit) (hv : start.Valid) :
    idxSec unit (startIdx start unit) ≤ start.toSec := by
  obtain ⟨hm1, hm2, hd1, hd2, _, _, _⟩ := hv
  cases unit
  case second => simp [idxSec, startIdx]
  case minute => simp [idxSec, startIdx]
  case hour => simp [idxSec, startIdx]
  case day => simp [idxSec, startIdx]
  case week =>
    simp only [idxSec, startIdx, weekFloorDay, weekdayOfDay]
    omega
  case month =>
    simp only [idxSec, startIdx, monthStartSec, monthStartDays]
    have huniq := ediv_emod_uniq (d := 12) (q := start.year) (r := (start.month : ℤ) - 1)
      (a := 12 * start.year + ((start.month : ℤ) - 1))
      (by norm_num) (by ring) (by omega) (by omega)
    rw [huniq.1, huniq.2]
    have hmt : ((start.month : ℤ) - 1).toNat + 1 = start.month := by omega
    rw [hmt]
    unfold DateTime.toSec daysFromCivil
    omega
  case year =>
    simp only [idxSec, startIdx, monthStartSec, monthStartDays]
    have huniq := ediv_emod_uniq (d := 12) (q := start.year) (r := 0)
      (a := 12 * start.year) (by norm_num) (by ring) (by omega) (by omega)
    rw [huniq.1, huniq.2]
    have h1 : daysBeforeMonth start.year ((0 : ℤ).toNat + 1) = 0 := by
      simp [daysBeforeMonth, cumDays]
    rw [h1]
    have h2 : 0 ≤ daysBeforeMonth start.year start.month := daysBeforeMonth_nonneg _ _
    unfold DateTime.toSec daysFromCivil
    omega

theorem bucketStarts_ne_nil (start endd : DateTime) (mult : ℕ) (unit : BucketUnit)
    (hv : start.Valid) (hlt : start.toSec < endd.toSec) :
    bucketStarts start endd mult unit ≠ [] := by
  have hc : idxSec unit (startIdx start unit) < endd.toSec :=
    lt_of_le_of_lt (snap_le start unit hv) hlt
  exact genCalAux_ne_nil (idxSec unit) endd.toSec (idxStep mult unit)
    (((endd.toSec - idxSec unit (startIdx start unit)).toNat
        / ((mult : ℤ) * unitMinStepSec unit).toNat) + 1)
    (startIdx start unit) hc

theorem bucketStarts_head (start endd : DateTime) (mult : ℕ) (unit : BucketUnit)
    (hv : start.Valid) (hlt : start.toSec < endd.toSec) :
    (bucketStarts start endd mult unit).head? = some (idxSec unit (startIdx start unit)) := by
  have hc : idxSec unit (startIdx start unit) < endd.toSec :=
    lt_of_le_of_lt (snap_le start unit hv) hlt
  exact genCalAux_head (idxSec unit) endd.toSec (idxStep mult unit)
    (((endd.toSec - idxSec unit (startIdx start unit)).toNat
        / ((mult : ℤ) * unitMinStepSec unit).toNat) + 1)
    (startIdx start unit) hc

theorem windows_head_fst (s e : ℤ) (bs : List ℤ) (h : bs ≠ []) :
    ((windows s e bs).head?).map Prod.fst = some s := by
  match bs with
  | [] => exact absurd rfl h
  | b :: t =>
    unfold windows
    match t with
    | [] => rfl
    | c :: t' => rfl

theorem zip_consec_getLast (e : ℤ) :
    ∀ (t : List ℤ) (s : ℤ), (((s :: t).zip (t ++ [e])).getLast?).map Prod.snd = some e := by
  intro t
  induction t with
  | nil => intro s; rfl
  | cons b t' ih =>
    intro s
    rw [List.cons_append, List.zip_cons_cons]
    have hne : (b :: t').zip (t' ++ [e]) ≠ [] := by
      match t' with
      | [] => simp
      | c :: t'' => simp
    match hzz : (b :: t').zip (t' ++ [e]) with
    | [] => exact absurd hzz hne
    | w :: ws =>
      rw [List.getLast?_cons_cons]
      rw [← hzz]
      exact ih b

theorem windows_getLast_snd (s e : ℤ) (bs : List ℤ) (h : bs ≠ []) :
    ((windows s e bs).getLast?).map Prod.snd = some e := by
  match bs with
  | [] => exact absurd rfl h
  | b :: t =>
    unfold windows
    exact zip_consec_getLast e t s

/-- C10 (confirmed): the per-bucket windows are clipped to the caller's
range at both ends — the first window starts exactly at the caller's
start, the last ends exactly at the caller's end — and consequently the
returned bucket durations sum to `end - start` in seconds, for every
bucket unit, even though the first boundary may precede the start. -/
theorem C10_durations_clipped (start endd : DateTime) (mult : ℕ) (unit : BucketUnit)
    (hv : start.Valid) (hlt : start.toSec < endd.toSec) :
    ((windows start.toSec endd.toSec (bucketStarts start endd mult unit)).head?).map Prod.fst
        = some start.toSec
    ∧ ((windows start.toSec endd.toSec (bucketStarts start endd mult unit)).getLast?).map Prod.snd
        = some endd.toSec
    ∧ (durationsOf start.toSec endd.toSec (bucketStarts start endd mult unit)).sum
        = endd.toSec - start.toSec := by
  have hne := bucketStarts_ne_nil start endd mult unit hv hlt
  exact ⟨windows_head_fst _ _ _ hne, windows_getLast_snd _ _ _ hne,
    durationsOf_sum _ _ _ hne⟩

/-- Witness for C10 at the month grid of the repository's
`test_gen_seconds_per_bucket` month case. -/
theorem C10_witness :
    (durationsOf (DateTime.toSec ⟨2020, 1, 30, 0, 0, 0⟩) (DateTime.toSec ⟨2020, 3, 3, 0, 0, 0⟩)
        (bucketStarts ⟨2020, 1, 30, 0, 0, 0⟩ ⟨2020, 3, 3, 0, 0, 0⟩ 1 .month)).sum
      = DateTime.toSec ⟨2020, 3, 3, 0, 0, 0⟩ - DateTime.toSec ⟨2020, 1, 30, 0, 0, 0⟩ :=
  (C10_durations_clipped ⟨2020, 1, 30, 0, 0, 0⟩ ⟨2020, 3, 3, 0, 0, 0⟩ 1 .month
    (by decide) (by decide)).2.2

/-- C3 (corrected), counterexample: for the month grid over
`[2020-01-30, 2020-03-03)` (the `test_gen_seconds_per_bucket` month case,
durations `[2, 29, 2]` days), the sum of the returned durations is
2851200 s, while the span from the first returned boundary (2020-01-01)
to the last returned boundary (2020-03-01) is 5184000 s: the claimed
identity fails. -/
theorem C3_counterexample :
    (bucketStarts ⟨2020, 1, 30, 0, 0, 0⟩ ⟨2020, 3, 3, 0, 0, 0⟩ 1 .month).head? = some 1577836800
    ∧ (bucketStarts ⟨2020, 1, 30, 0, 0, 0⟩ ⟨2020, 3, 3, 0, 0, 0⟩ 1 .month).getLast?
        = some 1583020800
    ∧ (durationsOf (DateTime.toSec ⟨2020, 1, 30, 0, 0, 0⟩) (DateTime.toSec ⟨2020, 3, 3, 0, 0, 0⟩)
        (bucketStarts ⟨2020, 1, 30, 0, 0, 0⟩ ⟨2020, 3, 3, 0, 0, 0⟩ 1 .month)).sum = 2851200
    ∧ (2851200 : ℤ) ≠ 1583020800 - 1577836800 := by
  refine ⟨by decide, by decide, by decide, by decide⟩

/-- C3 (corrected, amended): for every calendar-unit grid the sum of the
returned bucket durations equals `end - start` — the span of the caller's
requested range — not the span between the first and last returned
boundaries; the first boundary may still precede the caller's start. -/
theorem C3_amended_calendar_sum (start endd : DateTime) (mult : ℕ) (unit : BucketUnit)
    (hv : start.Valid) (hlt : start.toSec < endd.toSec) (hcal : CalUnit unit) :
    (∃ b0, (bucketStarts start endd mult unit).head? = some b0 ∧ b0 ≤ start.toSec)
    ∧ (durationsOf start.toSec endd.toSec (bucketStarts start endd mult unit)).sum
        = endd.toSec - start.toSec := by
  have hne := bucketStarts_ne_nil start endd mult unit hv hlt
  refine ⟨⟨idxSec unit (startIdx start unit), bucketStarts_head start endd mult unit hv hlt,
    snap_le start unit hv⟩, durationsOf_sum _ _ _ hne⟩

/-- Witness for the amended C3 at the week grid of the repository's
`test_gen_seconds_per_bucket` week case. -/
theorem C3_amended_witness :
    (durationsOf (DateTime.toSec ⟨2020, 1, 1, 0, 0, 0⟩) (DateTime.toSec ⟨2020, 1, 22, 0, 0, 0⟩)
        (bucketStarts ⟨2020, 1, 1, 0, 0, 0⟩ ⟨2020, 1, 22, 0, 0, 0⟩ 1 .week)).sum
      = DateTime.toSec ⟨2020, 1, 22, 0, 0, 0⟩ - DateTime.toSec ⟨2020, 1, 1, 0, 0, 0⟩ :=
  (C3_amended_calendar_sum ⟨2020, 1, 1, 0, 0, 0⟩ ⟨2020, 1, 22, 0, 0, 0⟩ 1 .week
    (by decide) (by decide) (Or.inl rfl)).2

/-! ### Fixed-width grids -/

theorem fixed_data (mult : ℕ) (u : BucketUnit) (hfix : FixedUnit u) :
    idxSec u = (fun s => s) ∧ (∀ st : DateTime, startIdx st u = st.toSec)
      ∧ idxStep mult u = (mult : ℤ) * unitMinStepSec u ∧ 0 < unitMinStepSec u := by
  rcases hfix with h | h | h | h <;> subst h <;>
    exact ⟨rfl, fun st => rfl, by unfold idxStep unitMinStepSec; ring, by decide⟩

theorem dvd_span_eq (stp x : ℤ) (hstp : 0 < stp) (h1 : 0 < x) (h2 : x ≤ stp)
    (hdvd : stp ∣ x) : x = stp := by
  obtain ⟨c, hc⟩ := hdvd
  have hle : stp * c ≤ stp * 1 := by rw [mul_one]; linarith
  have hc1 : c ≤ 1 := le_of_mul_le_mul_left hle hstp
  have hmp := mul_pos_iff.mp (show (0 : ℤ) < stp * c by linarith)
  have hcpos : 0 < c := by
    rcases hmp with ⟨_, h⟩ | ⟨h, _⟩
    · exact h
    · linarith
  have hc2 : c = 1 := by omega
  rw [hc2, mul_one] at hc
  omega

theorem fixed_tail_durs (e stp : ℤ) (hstp : 0 < stp) :
    ∀ (f : ℕ) (cur : ℤ), e ≤ cur + stp * ((f : ℤ) + 1) →
      (∀ d ∈ ((((cur :: genCalAux (fun x => x) e stp f (cur + stp))).zip
            ((genCalAux (fun x => x) e stp f (cur + stp)) ++ [e])).map
            (fun w => w.2 - w.1)).dropLast, d = stp)
      ∧ (stp ∣ (e - cur) → cur < e →
          ∀ d ∈ (((cur :: genCalAux (fun x => x) e stp f (cur + stp))).zip
            ((genCalAux (fun x => x) e stp f (cur + stp)) ++ [e])).map
            (fun w => w.2 - w.1), d = stp) := by
  intro f
  induction f with
  | zero =>
    intro cur hfuel
    simp only [Nat.cast_zero, zero_add, mul_one] at hfuel
    have hnil : genCalAux (fun x => x) e stp 0 (cur + stp) = [] := rfl
    rw [hnil]
    simp only [List.nil_append, List.zip_cons_cons, List.zip_nil_left, List.map_cons,
      List.map_nil]
    constructor
    · intro d hd
      simp at hd
    · intro hdvd hlt d hd
      have hx : d = e - cur := by
        simpa using hd
      have := dvd_span_eq stp (e - cur) hstp (by omega) (by omega) hdvd
      omega
  | succ n ih =>
    intro cur hfuel
    by_cases hc2 : cur + stp < e
    · have hg : genCalAux (fun x => x) e stp (n + 1) (cur + stp)
          = (cur + stp) :: genCalAux (fun x => x) e stp n ((cur + stp) + stp) := by
        conv_lhs => unfold genCalAux
        rw [if_pos hc2]
      have hfuel' : e ≤ (cur + stp) + stp * ((n : ℤ) + 1) := by
        have hexp : stp * (((n : ℕ) + 1 : ℕ) + 1 : ℤ) = stp * ((n : ℤ) + 1) + stp := by
          push_cast
          ring
        push_cast at hfuel ⊢
        linarith [hfuel, hexp]
      have hih := ih (cur + stp) hfuel'
      rw [hg]
      set L' := genCalAux (fun x => x) e stp n ((cur + stp) + stp) with hL'
      have hzz : ((cur :: (cur + stp) :: L').zip (((cur + stp) :: L') ++ [e])).map
            (fun w => w.2 - w.1)
          = (stp) :: (((cur + stp) :: L').zip (L' ++ [e])).map (fun w => w.2 - w.1) := by
        rw [List.cons_append, List.zip_cons_cons, List.map_cons]
        congr 1
        ring
      rw [hzz]
      have hDne : (((cur + stp) :: L').zip (L' ++ [e])).map (fun w => w.2 - w.1) ≠ [] := by
        match L' with
        | [] => simp
        | c :: t'' => simp
      constructor
      · intro d hd
        match hD : (((cur + stp) :: L').zip (L' ++ [e])).map (fun w => w.2 - w.1) with
        | [] => exact absurd hD hDne
        | w :: ws =>
          rw [hD, List.dropLast_cons₂] at hd
          rcases List.mem_cons.mp hd with h | h
          · exact h
          · apply hih.1 d
            rw [hD]
            exact h
      · intro hdvd hlt d hd
        rcases List.mem_cons.mp hd with h | h
        · exact h
        · have hdvd' : stp ∣ (e - (cur + stp)) := by
            have : e - (cur + stp) = (e - cur) - stp := by ring
            rw [this]
            exact dvd_sub hdvd (dvd_refl stp)
          exact hih.2 hdvd' hc2 d h
    · have hg : genCalAux (fun x => x) e stp (n + 1) (cur + stp) = [] := by
        conv_lhs => unfold genCalAux
        rw [if_neg hc2]
      rw [hg]
      simp only [List.nil_append, List.zip_cons_cons]
      constructor
      · intro d hd
        simp at hd
      · intro hdvd hlt d hd
        have hx : d = e - cur := by
          simpa using hd
        have := dvd_span_eq stp (e - cur) hstp (by omega) (by omega) hdvd
        omega

theorem genCalAux_cons (secOf : ℤ → ℤ) (endSec stp : ℤ) (f : ℕ) (idx : ℤ)
    (hc : secOf idx < endSec) :
    genCalAux secOf endSec stp (f + 1) idx
      = secOf idx :: genCalAux secOf endSec stp f (idx + stp) := by
  conv_lhs => unfold genCalAux
  rw [if_pos hc]

theorem bucketFuel_succ (start endd : DateTime) (mult : ℕ) (unit : BucketUnit) :
    bucketFuel start endd mult unit = (bucketFuel start endd mult unit - 1) + 1 := by
  unfold bucketFuel
  rfl

/-- C4 (corrected), counterexample: for the fixed-width hour grid over
`[2020-01-01T00:30, 2020-01-01T03:00)` (the repository's "2 hours - hour
step with offset" case), the returned durations are `[3600, 3600, 1800]`:
the last bucket's duration is 1800 s, not `multiplier * unit_seconds =
3600` as claimed. -/
theorem C4_counterexample :
    (durationsOf (DateTime.toSec ⟨2020, 1, 1, 0, 30, 0⟩) (DateTime.toSec ⟨2020, 1, 1, 3, 0, 0⟩)
        (bucketStarts ⟨2020, 1, 1, 0, 30, 0⟩ ⟨2020, 1, 1, 3, 0, 0⟩ 1 .hour))
      = [3600, 3600, 1800]
    ∧ (1800 : ℤ) ≠ 1 * unitMinStepSec .hour := by
  exact ⟨by decide, by decide⟩

/-- C4 (corrected, amended): for fixed-width units, every bucket's
duration except possibly the last equals `multiplier * unit_seconds`
exactly; the last bucket is clipped to the caller's `end`, and when
`end - start` is an exact multiple of the bucket width every bucket,
including the last, equals `multiplier * unit_seconds`. -/
theorem C4_amended_fixed_durations (start endd : DateTime) (mult : ℕ) (unit : BucketUnit)
    (hfix : FixedUnit unit) (hm : 1 ≤ mult) (hlt : start.toSec < endd.toSec) :
    (∀ d ∈ (durationsOf start.toSec endd.toSec (bucketStarts start endd mult unit)).dropLast,
        d = (mult : ℤ) * unitMinStepSec unit)
    ∧ (((mult : ℤ) * unitMinStepSec unit) ∣ (endd.toSec - start.toSec) →
        ∀ d ∈ durationsOf start.toSec endd.toSec (bucketStarts start endd mult unit),
          d = (mult : ℤ) * unitMinStepSec unit) := by
  obtain ⟨hsec, hsidx, hstep, hupos⟩ := fixed_data mult unit hfix
  have hstp : 0 < (mult : ℤ) * unitMinStepSec unit :=
    mul_pos (by exact_mod_cast hm) hupos
  have hbs : bucketStarts start endd mult unit
      = genCalAux (fun x => x) endd.toSec ((mult : ℤ) * unitMinStepSec unit)
          (((endd.toSec - start.toSec).toNat
              / ((mult : ℤ) * unitMinStepSec unit).toNat) + 2) start.toSec := by
    unfold bucketStarts bucketFuel
    rw [hsec, hsidx start, hstep]
  set stp := (mult : ℤ) * unitMinStepSec unit with hstpdef
  set s := start.toSec with hsdef
  set e := endd.toSec with hedef
  set q := (e - s).toNat / stp.toNat with hqdef
  have hg1 : genCalAux (fun x => x) e stp (q + 2) s
      = s :: genCalAux (fun x => x) e stp (q + 1) (s + stp) :=
    genCalAux_cons (fun x => x) e stp (q + 1) s hlt
  have hfuel : e ≤ s + stp * (((q + 1 : ℕ) : ℤ) + 1) := by
    have hr := fuel_le_reach (e - s) stp hstp
    rw [← hqdef] at hr
    push_cast at hr ⊢
    linarith
  have hdur : durationsOf s e (s :: genCalAux (fun x => x) e stp (q + 1) (s + stp))
      = (((s :: genCalAux (fun x => x) e stp (q + 1) (s + stp)).zip
          ((genCalAux (fun x => x) e stp (q + 1) (s + stp)) ++ [e])).map
          (fun w => w.2 - w.1)) := rfl
  have hmain := fixed_tail_durs e stp hstp (q + 1) s hfuel
  rw [hbs, hg1, hdur]
  exact ⟨hmain.1, fun hdvd => hmain.2 hdvd hlt⟩

/-- Witness for the amended C4: in the hour grid with offset start, the
non-last durations all equal `1 * 3600`. -/
theorem C4_amended_witness : (3600 : ℤ) = (1 : ℤ) * unitMinStepSec .hour :=
  (C4_amended_fixed_durations ⟨2020, 1, 1, 0, 30, 0⟩ ⟨2020, 1, 1, 3, 0, 0⟩ 1 .hour
    (Or.inr (Or.inr (Or.inl rfl))) (by decide) (by decide)).1 3600 (by decide)

/-- C9 (confirmed): for fixed-width units the first returned boundary is
exactly the caller's start instant — no calendar snapping, for aligned
and unaligned starts alike — and the grid is half-open: every boundary
lies in `[start, end)`. -/
theorem C9_fixed_first_boundary (start endd : DateTime) (mult : ℕ) (unit : BucketUnit)
    (hfix : FixedUnit unit) (hlt : start.toSec < endd.toSec) :
    (bucketStarts start endd mult unit).head? = some start.toSec
    ∧ ∀ b ∈ bucketStarts start endd mult unit, start.toSec ≤ b ∧ b < endd.toSec := by
  obtain ⟨hsec, hsidx, hstep, hupos⟩ := fixed_data mult unit hfix
  have hbs : bucketStarts start endd mult unit
      = genCalAux (fun x => x) endd.toSec (idxStep mult unit)
          (bucketFuel start endd mult unit) start.toSec := by
    unfold bucketStarts
    rw [hsec, hsidx start]
  rw [hbs]
  have hstpnn : (0 : ℤ) ≤ idxStep mult unit := by
    rw [hstep]
    exact mul_nonneg (Nat.cast_nonneg mult) (le_of_lt hupos)
  constructor
  · rw [bucketFuel_succ start endd mult unit]
    exact genCalAux_head (fun x => x) endd.toSec (idxStep mult unit)
      (bucketFuel start endd mult unit - 1) start.toSec hlt
  · intro b hb
    exact ⟨genCalAux_mem_ge_id endd.toSec (idxStep mult unit) hstpnn
        (bucketFuel start endd mult unit) start.toSec b hb,
      genCalAux_mem_lt (fun x => x) endd.toSec (idxStep mult unit)
        (bucketFuel start endd mult unit) start.toSec b hb⟩

/-- Witness for C9: the hour grid over `[2020-01-01T00:30,
2020-01-01T03:00)` starts exactly at the unaligned caller start. -/
theorem C9_witness :
    (bucketStarts ⟨2020, 1, 1, 0, 30, 0⟩ ⟨2020, 1, 1, 3, 0, 0⟩ 1 .hour).head?
      = some (DateTime.toSec ⟨2020, 1, 1, 0, 30, 0⟩) :=
  (C9_fixed_first_boundary ⟨2020, 1, 1, 0, 30, 0⟩ ⟨2020, 1, 1, 3, 0, 0⟩ 1 .hour
    (Or.inr (Or.inr (Or.inl rfl))) (by decide)).1

/-! ### Per-series report facts -/

theorem seriesStats_ratioAvg (ts : Timeseries) (ws : List (ℤ × ℤ)) (counts : List ℕ) :
    (seriesStats ts ws counts).ratioAvg
      = (if (seriesStats ts ws counts).ratios.filterMap id = [] then none
          else some (((seriesStats ts ws counts).ratios.filterMap id).sum
            / (((seriesStats ts ws counts).ratios.filterMap id).length : ℚ))) := rfl

theorem seriesStats_total (ts : Timeseries) (ws : List (ℤ × ℤ)) (counts : List ℕ) :
    (seriesStats ts ws counts).total_count = counts.sum := rfl

theorem seriesStats_count (ts : Timeseries) (ws : List (ℤ × ℤ)) (counts : List ℕ) :
    (seriesStats ts ws counts).count = counts := rfl

theorem seriesStats_avg (ts : Timeseries) (ws : List (ℤ × ℤ)) (counts : List ℕ) :
    (seriesStats ts ws counts).avg_count = (counts.sum : ℚ) / (ws.length : ℚ) := rfl

theorem seriesStats_name (ts : Timeseries) (ws : List (ℤ × ℤ)) (counts : List ℕ) :
    (seriesStats ts ws counts).name = ts.name := rfl

/-- C7 (confirmed): in every series report the engine emits,
`total_count` is the sum of the per-bucket observed counts, `avg_count`
is `total_count` divided by the number of buckets, and `avg_ratio` is the
arithmetic mean of exactly the non-`None` per-bucket ratios — `None` when
no ratio is defined. -/
theorem C7_aggregates (start endd : DateTime) (tsl : List Timeseries) (dataState mult : ℕ)
    (unit : BucketUnit) (store : Store) (r : Report)
    (hok : compute_completeness start endd tsl dataState mult unit store = .ok r) :
    ∀ p ∈ r.timeseries,
      p.2.total_count = p.2.count.sum
      ∧ p.2.avg_count = (p.2.total_count : ℚ) / (p.2.count.length : ℚ)
      ∧ (p.2.ratioAvg = none ↔ p.2.ratios.filterMap id = [])
      ∧ (∀ q : ℚ, p.2.ratioAvg = some q
          → q = (p.2.ratios.filterMap id).sum / ((p.2.ratios.filterMap id).length : ℚ)) := by
  by_cases hm : mult = 0
  · rw [compute_completeness, if_pos hm] at hok
    exact absurd hok (by simp)
  · rw [compute_completeness, if_neg hm] at hok
    simp only [Except.ok.injEq] at hok
    intro p hp
    rw [← hok] at hp
    simp only [List.mem_map] at hp
    obtain ⟨ts, hts, hpe⟩ := hp
    subst hpe
    simp only
    set ws := windows start.toSec endd.toSec (bucketStarts start endd mult unit) with hws
    set counts := bucketCounts ws (store ts.id dataState) with hcounts
    have hlen : counts.length = ws.length := by
      rw [hcounts]
      exact List.length_map _ _
    refine ⟨seriesStats_total ts ws counts, ?_, ?_, ?_⟩
    · rw [seriesStats_avg, seriesStats_total, seriesStats_count, hlen]
    · rw [seriesStats_ratioAvg]
      split
      · simp [*]
      · simp [*]
    · intro q hq
      rw [seriesStats_ratioAvg] at hq
      rcases hc : (seriesStats ts ws counts).ratios.filterMap id with _ | _
      · rw [if_pos hc] at hq
        exact absurd hq (by simp)
      · rw [hc] at hq
        rw [if_neg (by simp)] at hq
        exact ((Option.some.injEq _ _).mp hq).symm

/-! ### Witness fixtures: a two-minute range, minute buckets, one series
with declared interval 600 and samples at both bucket starts -/

/-- Witness fixture: range start 2020-01-01T00:00Z. -/
def wStart : DateTime := ⟨2020, 1, 1, 0, 0, 0⟩

/-- Witness fixture: range end 2020-01-01T00:02Z. -/
def wEnd2m : DateTime := ⟨2020, 1, 1, 0, 2, 0⟩

/-- Witness fixture: a series with a declared 600 s interval. -/
def wSeries : Timeseries := ⟨1, "Timeseries 0", some 600⟩

/-- Witness fixture: store with one sample at each minute-bucket start. -/
def wStore : Store := fun i _ => if i = 1 then [1577836800, 1577836860] else []

/-- Witness fixture: the per-series report the engine computes for
`wSeries` on the two-minute minute-bucket grid. -/
def wSeriesRep : SeriesReport :=
  ⟨"Timeseries 0", [1, 1], 2, 1, some 600, false, [some (1/10), some (1/10)],
    [some 10, some 10], some 10⟩

/-- Witness fixture: the whole report for `[wSeries]`. -/
def wReport : Report := ⟨[1577836800, 1577836860], [(1, wSeriesRep)]⟩

/-- The report the engine computes on the witness fixture (rational
arithmetic does not reduce in the kernel, so the evaluation goes through
`norm_num`). -/
theorem wReport_eval :
    compute_completeness wStart wEnd2m [wSeries] 1 1 .minute wStore = .ok wReport := by
  unfold compute_completeness
  rw [if_neg (by decide)]
  dsimp only
  have hbs : bucketStarts wStart wEnd2m 1 .minute = [1577836800, 1577836860] := by decide
  rw [hbs]
  have hws : windows wStart.toSec wEnd2m.toSec [1577836800, 1577836860]
      = [(1577836800, 1577836860), (1577836860, 1577836920)] := by decide
  rw [hws]
  have hbc : bucketCounts [(1577836800, 1577836860), (1577836860, 1577836920)] (wStore 1 1)
      = [1, 1] := by decide
  simp only [List.map_cons, List.map_nil]
  rw [show wSeries.id = 1 from rfl]
  rw [hbc]
  unfold wReport
  simp only [Except.ok.injEq, Report.mk.injEq]
  refine ⟨by decide, ?_⟩
  simp only [List.cons.injEq, and_true, Prod.mk.injEq, true_and]
  unfold seriesStats intervalCandidates wSeries wSeriesRep
  simp only [List.map_cons, List.map_nil, List.zip_cons_cons, List.zip_nil_right]
  norm_num
  refine ⟨by simp, ?_⟩
  norm_num [List.filterMap_cons]

/-- Witness for C7 at the fixture scenario. -/
theorem C7_witness : wSeriesRep.total_count = wSeriesRep.count.sum :=
  ((C7_aggregates wStart wEnd2m [wSeries] 1 1 .minute wStore wReport wReport_eval)
    (1, wSeriesRep) (show (1, wSeriesRep) ∈ [(1, wSeriesRep)] from List.mem_singleton.mpr rfl)).1

/-! ### The all-zero series -/

theorem bucketCounts_nil (ws : List (ℤ × ℤ)) :
    bucketCounts ws [] = List.replicate ws.length 0 := by
  unfold bucketCounts countWindow
  simp only [List.countP_nil]
  exact List.map_const' ws 0

theorem seriesStats_empty (ts : Timeseries) (ws : List (ℤ × ℤ))
    (hdecl : ts.declaredInterval = none) :
    seriesStats ts ws (List.replicate ws.length 0)
      = { name := ts.name
          count := List.replicate ws.length 0
          total_count := 0
          avg_count := 0
          interval := none
          undefined_interval := true
          expected_count := List.replicate ws.length none
          ratios := List.replicate ws.length none
          ratioAvg := none } := by
  dsimp only [seriesStats]
  rw [hdecl]
  dsimp only [Option.isNone_none]
  have hlen : (ws.map (fun w => ((w.2 - w.1 : ℤ) : ℚ))).length = ws.length :=
    List.length_map _ _
  have hest : listMinQ (intervalCandidates ws (List.replicate ws.length (0 : ℕ))) = none := by
    have hnil : intervalCandidates ws (List.replicate ws.length (0 : ℕ)) = [] := by
      unfold intervalCandidates
      rw [List.filterMap_eq_nil_iff]
      intro p hp
      obtain ⟨a, b⟩ := p
      have hb : b = 0 := List.eq_of_mem_replicate (List.of_mem_zip hp).2
      simp [hb]
    rw [hnil]
    rfl
  rw [hest]
  simp only [Option.map_none', List.map_const', hlen, List.sum_replicate, smul_zero,
    Nat.cast_zero, zero_div, List.zip_replicate, min_self, List.map_replicate,
    Option.none_bind]
  have hdef : (List.replicate ws.length (none : Option ℚ)).filterMap id = [] := by
    rw [List.filterMap_eq_nil_iff]
    intro a ha
    have := List.eq_of_mem_replicate ha
    simpa using this
  rw [hdef]
  simp

/-- C6 (confirmed): a series with zero stored samples in range and no
declared interval yields the all-zero/`None` report — all-zero per-bucket
counts, `total_count` 0, `avg_count` 0, `interval` `None`,
`undefined_interval` `True`, `expected_count`, `ratio` all `None` and
`avg_ratio` `None` — and its presence neither aborts the report (the
result is still `ok`) nor changes the report's timestamps or the entries
of the other series. -/
theorem C6_empty_series (start endd : DateTime) (l1 l2 : List Timeseries) (tsE : Timeseries)
    (dataState mult : ℕ) (unit : BucketUnit) (store : Store)
    (hm : mult ≠ 0) (hdata : store tsE.id dataState = [])
    (hdecl : tsE.declaredInterval = none) :
    ∃ A B : List (ℕ × SeriesReport),
      compute_completeness start endd (l1 ++ l2) dataState mult unit store
        = .ok ⟨bucketStarts start endd mult unit, A ++ B⟩
      ∧ A.length = l1.length
      ∧ compute_completeness start endd (l1 ++ tsE :: l2) dataState mult unit store
        = .ok ⟨bucketStarts start endd mult unit,
            A ++ (tsE.id,
              { name := tsE.name
                count := List.replicate
                  (windows start.toSec endd.toSec (bucketStarts start endd mult unit)).length 0
                total_count := 0
                avg_count := 0
                interval := none
                undefined_interval := true
                expected_count := List.replicate
                  (windows start.toSec endd.toSec (bucketStarts start endd mult unit)).length none
                ratios := List.replicate
                  (windows start.toSec endd.toSec (bucketStarts start endd mult unit)).length none
                ratioAvg := none }) :: B⟩ := by
  refine ⟨l1.map (fun ts => (ts.id, seriesStats ts
      (windows start.toSec endd.toSec (bucketStarts start endd mult unit))
      (bucketCounts (windows start.toSec endd.toSec (bucketStarts start endd mult unit))
        (store ts.id dataState)))),
    l2.map (fun ts => (ts.id, seriesStats ts
      (windows start.toSec endd.toSec (bucketStarts start endd mult unit))
      (bucketCounts (windows start.toSec endd.toSec (bucketStarts start endd mult unit))
        (store ts.id dataState)))), ?_, ?_, ?_⟩
  · unfold compute_completeness
    rw [if_neg hm]
    dsimp only
    rw [List.map_append]
  · exact List.length_map _ _
  · unfold compute_completeness
    rw [if_neg hm]
    dsimp only
    rw [List.map_append, List.map_cons, hdata, bucketCounts_nil,
      seriesStats_empty tsE _ hdecl]

/-- Witness fixture: a series with no data and no declared interval. -/
def wEmptySeries : Timeseries := ⟨2, "Timeseries 4", none⟩

/-- Witness for C6 at the fixture scenario extended with the empty series. -/
theorem C6_witness :
    ∃ A B : List (ℕ × SeriesReport),
      compute_completeness wStart wEnd2m ([wSeries] ++ []) 1 1 .minute wStore
        = .ok ⟨bucketStarts wStart wEnd2m 1 .minute, A ++ B⟩
      ∧ A.length = [wSeries].length
      ∧ compute_completeness wStart wEnd2m ([wSeries] ++ wEmptySeries :: []) 1 1 .minute wStore
        = .ok ⟨bucketStarts wStart wEnd2m 1 .minute,
            A ++ (wEmptySeries.id,
              { name := wEmptySeries.name
                count := List.replicate
                  (windows wStart.toSec wEnd2m.toSec (bucketStarts wStart wEnd2m 1 .minute)).length 0
                total_count := 0
                avg_count := 0
                interval := none
                undefined_interval := true
                expected_count := List.replicate
                  (windows wStart.toSec wEnd2m.toSec (bucketStarts wStart wEnd2m 1 .minute)).length
                    none
                ratios := List.replicate
                  (windows wStart.toSec wEnd2m.toSec (bucketStarts wStart wEnd2m 1 .minute)).length
                    none
                ratioAvg := none }) :: B⟩ :=
  C6_empty_series wStart wEnd2m [wSeries] [] wEmptySeries 1 1 .minute wStore
    (by decide) rfl rfl

/-- C8 (confirmed): the period-string call convention and the explicit
`(multiplier, unit)` call convention produce structurally identical
reports whenever the period string parses to that pair: identical
timestamps, and entry-for-entry identical series reports, with the series
key being the display name in one convention and the identifier in the
other (the spaced versus underscore-joined field labels are a
serialization detail outside this embedding). -/
theorem C8_conventions_agree (start endd : DateTime) (tsl : List Timeseries)
    (dataState : ℕ) (s : String) (mult : ℕ) (unit : BucketUnit) (store : Store)
    (hp : parsePeriod s = some (mult, unit)) :
    compute_completeness_period start endd tsl dataState s store
      = (compute_completeness start endd tsl dataState mult unit store).map
          (fun r => ⟨r.timestamps, r.timeseries.map (fun p => (p.2.name, p.2))⟩) := by
  unfold compute_completeness_period compute_completeness
  rw [hp]
  dsimp only
  by_cases hm : mult = 0
  · rw [if_pos hm, if_pos hm]
    rfl
  · rw [if_neg hm, if_neg hm]
    dsimp only [Except.map]
    congr 1
    rw [List.map_map]
    rfl

/-- Witness for C8: the fixture computed through `"1 minute"` agrees with
the explicit `(1, minute)` computation. -/
theorem C8_witness :
    compute_completeness_period wStart wEnd2m [wSeries] 1 "1 minute" wStore
      = (compute_completeness wStart wEnd2m [wSeries] 1 1 .minute wStore).map
          (fun r => ⟨r.timestamps, r.timeseries.map (fun p => (p.2.name, p.2))⟩) :=
  C8_conventions_agree wStart wEnd2m [wSeries] 1 "1 minute" 1 .minute wStore (by decide)

/-! ### Calendar snapping -/

theorem monthFloor_toSec (y : ℤ) (m : ℕ) (h1 : 1 ≤ m) (h2 : m ≤ 12) :
    monthStartSec (12 * y + ((m : ℤ) - 1)) = DateTime.toSec ⟨y, m, 1, 0, 0, 0⟩ := by
  unfold monthStartSec monthStartDays DateTime.toSec daysFromCivil
  have huniq := ediv_emod_uniq (d := 12) (q := y) (r := (m : ℤ) - 1)
    (a := 12 * y + ((m : ℤ) - 1)) (by norm_num) (by ring) (by omega) (by omega)
  rw [huniq.1, huniq.2]
  have hmt : ((m : ℤ) - 1).toNat + 1 = m := by omega
  rw [hmt]
  push_cast
  ring

theorem yearFloor_toSec (y : ℤ) : monthStartSec (12 * y) = DateTime.toSec ⟨y, 1, 1, 0, 0, 0⟩ := by
  have h := monthFloor_toSec y 1 (le_refl 1) (by norm_num)
  rw [show (12 * y + (((1 : ℕ) : ℤ) - 1)) = 12 * y from by push_cast; ring] at h
  exact h

theorem monthStartSec_growth (mult : ℕ) (i : ℤ) :
    monthStartSec i + (mult : ℤ) * 2419200 ≤ monthStartSec (i + mult) := by
  have h := monthStartDays_add_ge i mult
  unfold monthStartSec
  linarith

theorem monthStartSec_growth12 (mult : ℕ) (i : ℤ) :
    monthStartSec i + (mult : ℤ) * 29030400 ≤ monthStartSec (i + 12 * mult) := by
  have h := monthStartDays_add_ge i (12 * mult)
  push_cast at h
  unfold monthStartSec
  linarith

/-- C5 (confirmed): for every range and calendar unit the first boundary
is snapped down to the unit's canonical start — week to the zone-local
midnight of the most recent Monday at/before start, month to the first of
start's month, year to January 1 of start's year — and the grid advances
by `multiplier` calendar units, so that the boundary following the last
returned one lies at/after `end` (the last bucket extends to at least
`end`); in particular the "1 week" grid over `[2020-01-01, 2020-03-01)`
has 9 buckets, the first starting 2019-12-30. -/
theorem C5_calendar_snapping (start endd : DateTime) (mult : ℕ)
    (hv : start.Valid) (hm : 1 ≤ mult) (hlt : start.toSec < endd.toSec) :
    ((bucketStarts start endd mult .week).head? = some (86400 * weekFloorDay start.toSec)
      ∧ 86400 * weekFloorDay start.toSec ≤ start.toSec
      ∧ start.toSec - 86400 * weekFloorDay start.toSec < 604800
      ∧ weekdayOfDay (weekFloorDay start.toSec) = 0)
    ∧ ((bucketStarts start endd mult .month).head?
          = some (DateTime.toSec ⟨start.year, start.month, 1, 0, 0, 0⟩)
      ∧ DateTime.toSec ⟨start.year, start.month, 1, 0, 0, 0⟩ ≤ start.toSec)
    ∧ ((bucketStarts start endd mult .year).head?
          = some (DateTime.toSec ⟨start.year, 1, 1, 0, 0, 0⟩)
      ∧ DateTime.toSec ⟨start.year, 1, 1, 0, 0, 0⟩ ≤ start.toSec)
    ∧ (∀ u, CalUnit u →
        endd.toSec ≤ idxSec u (startIdx start u
          + idxStep mult u * (bucketStarts start endd mult u).length))
    ∧ ((bucketStarts ⟨2020, 1, 1, 0, 0, 0⟩ ⟨2020, 3, 1, 0, 0, 0⟩ 1 .week).length = 9
      ∧ (bucketStarts ⟨2020, 1, 1, 0, 0, 0⟩ ⟨2020, 3, 1, 0, 0, 0⟩ 1 .week).head?
          = some (DateTime.toSec ⟨2019, 12, 30, 0, 0, 0⟩)) := by
  have hm1 : 1 ≤ start.month := hv.1
  have hm2 : start.month ≤ 12 := hv.2.1
  refine ⟨⟨?_, ?_, ?_, ?_⟩, ⟨?_, ?_⟩, ⟨?_, ?_⟩, ?_, ⟨by decide, by decide⟩⟩
  · exact bucketStarts_head start endd mult .week hv hlt
  · exact snap_le start .week hv
  · simp only [weekFloorDay, weekdayOfDay]
    omega
  · simp only [weekFloorDay, weekdayOfDay]
    omega
  · rw [← monthFloor_toSec start.year start.month hm1 hm2]
    exact bucketStarts_head start endd mult .month hv hlt
  · rw [← monthFloor_toSec start.year start.month hm1 hm2]
    exact snap_le start .month hv
  · rw [← yearFloor_toSec start.year]
    exact bucketStarts_head start endd mult .year hv hlt
  · rw [← yearFloor_toSec start.year]
    exact snap_le start .year hv
  · intro u hcal
    have hmz : (0 : ℤ) < (mult : ℤ) := by exact_mod_cast hm
    rcases hcal with h | h | h <;> subst h
    · have hg : (0 : ℤ) < (mult : ℤ) * unitMinStepSec .week :=
        mul_pos hmz (by decide)
      have hgrow : ∀ i : ℤ, idxSec .week i + (mult : ℤ) * unitMinStepSec .week
          ≤ idxSec .week (i + idxStep mult .week) := by
        intro i
        simp only [idxSec, idxStep, unitMinStepSec]
        linarith [show (86400 : ℤ) * (i + 7 * (mult : ℤ)) = 86400 * i + 604800 * (mult : ℤ)
          from by ring]
      have hfr := fuel_le_reach (endd.toSec - idxSec .week (startIdx start .week))
        ((mult : ℤ) * unitMinStepSec .week) hg
      exact genCalAux_reach (idxSec .week) endd.toSec (idxStep mult .week)
        ((mult : ℤ) * unitMinStepSec .week) hgrow
        (((endd.toSec - idxSec .week (startIdx start .week)).toNat
            / ((mult : ℤ) * unitMinStepSec .week).toNat) + 1)
        (startIdx start .week) (by linarith)
    · have hg : (0 : ℤ) < (mult : ℤ) * unitMinStepSec .month :=
        mul_pos hmz (by decide)
      have hgrow : ∀ i : ℤ, idxSec .month i + (mult : ℤ) * unitMinStepSec .month
          ≤ idxSec .month (i + idxStep mult .month) := by
        intro i
        exact monthStartSec_growth mult i
      have hfr := fuel_le_reach (endd.toSec - idxSec .month (startIdx start .month))
        ((mult : ℤ) * unitMinStepSec .month) hg
      exact genCalAux_reach (idxSec .month) endd.toSec (idxStep mult .month)
        ((mult : ℤ) * unitMinStepSec .month) hgrow
        (((endd.toSec - idxSec .month (startIdx start .month)).toNat
            / ((mult : ℤ) * unitMinStepSec .month).toNat) + 1)
        (startIdx start .month) (by linarith)
    · have hg : (0 : ℤ) < (mult : ℤ) * unitMinStepSec .year :=
        mul_pos hmz (by decide)
      have hgrow : ∀ i : ℤ, idxSec .year i + (mult : ℤ) * unitMinStepSec .year
          ≤ idxSec .year (i + idxStep mult .year) := by
        intro i
        exact monthStartSec_growth12 mult i
      have hfr := fuel_le_reach (endd.toSec - idxSec .year (startIdx start .year))
        ((mult : ℤ) * unitMinStepSec .year) hg
      exact genCalAux_reach (idxSec .year) endd.toSec (idxStep mult .year)
        ((mult : ℤ) * unitMinStepSec .year) hgrow
        (((endd.toSec - idxSec .year (startIdx start .year)).toNat
            / ((mult : ℤ) * unitMinStepSec .year).toNat) + 1)
        (startIdx start .year) (by linarith)

/-- Witness for C5: the month grid over `[2020-01-01, 2020-03-01)` starts
at the first of January. -/
theorem C5_witness :
    (bucketStarts ⟨2020, 1, 1, 0, 0, 0⟩ ⟨2020, 3, 1, 0, 0, 0⟩ 1 .month).head?
      = some (DateTime.toSec ⟨2020, 1, 1, 0, 0, 0⟩) :=
  (C5_calendar_snapping ⟨2020, 1, 1, 0, 0, 0⟩ ⟨2020, 3, 1, 0, 0, 0⟩ 1
    (by decide) (by decide) (by decide)).2.1.1

/-! ### The end-to-end two-month scenario -/

/-- C1 fixture: range start 2020-01-01T00:00Z. -/
def c1Start : DateTime := ⟨2020, 1, 1, 0, 0, 0⟩

/-- C1 fixture: range end 2020-03-01T00:00Z. -/
def c1End : DateTime := ⟨2020, 3, 1, 0, 0, 0⟩

/-- C1 fixture: the series with a declared 600 s interval. -/
def c1Series : Timeseries := ⟨1, "Timeseries 0", some 600⟩

/-- C1 fixture: full 10-minute data over the whole range, 8640 samples
(the repository test's `pd.date_range(start, end, freq="600S")`). -/
def c1Store : Store := fun i _ => if i = 1 then sampleList 1577836800 600 8640 else []

/-- C1 fixture: the expected per-series report. -/
def c1SeriesRep : SeriesReport :=
  ⟨"Timeseries 0", [4464, 4176], 8640, 4320, some 600, false, [some 4464, some 4176],
    [some 1, some 1], some 1⟩

/-- C1 fixture: the expected whole report; 1577836800 and 1580515200 are
2020-01-01T00:00Z and 2020-02-01T00:00Z. -/
def c1Report : Report := ⟨[1577836800, 1580515200], [(1, c1SeriesRep)]⟩

/-- C1 (confirmed): the end-to-end monthly completeness over
`[2020-01-01, 2020-03-01)` at the Raw state for a declared-600 s series
with full 10-minute data returns exactly two monthly buckets starting
2020-01-01 and 2020-02-01, counts `[4464, 4176]`, expected counts
`[4464, 4176]`, ratios `[1, 1]`, `total_count` 8640, `avg_count` 4320,
`avg_ratio` 1, `interval` 600 and `undefined_interval` `False`. -/
theorem C1_end_to_end :
    compute_completeness c1Start c1End [c1Series] 1 1 .month c1Store = .ok c1Report := by
  unfold compute_completeness
  rw [if_neg (by decide)]
  dsimp only
  have hbs : bucketStarts c1Start c1End 1 .month = [1577836800, 1580515200] := by decide
  rw [hbs]
  have hws : windows c1Start.toSec c1End.toSec [1577836800, 1580515200]
      = [(1577836800, 1580515200), (1580515200, 1583020800)] := by decide
  rw [hws]
  have hc1 : countWindow (sampleList 1577836800 600 8640) (1577836800, 1580515200) = 4464 := by
    rw [countWindow_sampleList 1577836800 600 8640 1577836800 1580515200 (by norm_num)]
    decide
  have hc2 : countWindow (sampleList 1577836800 600 8640) (1580515200, 1583020800) = 4176 := by
    rw [countWindow_sampleList 1577836800 600 8640 1580515200 1583020800 (by norm_num)]
    decide
  have hbc : bucketCounts [(1577836800, 1580515200), (1580515200, 1583020800)] (c1Store 1 1)
      = [4464, 4176] := by
    have hst : c1Store 1 1 = sampleList 1577836800 600 8640 := rfl
    rw [hst]
    unfold bucketCounts
    rw [List.map_cons, List.map_cons, List.map_nil, hc1, hc2]
  simp only [List.map_cons, List.map_nil]
  rw [show c1Series.id = 1 from rfl]
  rw [hbc]
  unfold c1Report
  simp only [Except.ok.injEq, Report.mk.injEq]
  refine ⟨by decide, ?_⟩
  simp only [List.cons.injEq, and_true, Prod.mk.injEq, true_and]
  unfold seriesStats intervalCandidates c1Series c1SeriesRep
  simp only [List.map_cons, List.map_nil, List.zip_cons_cons, List.zip_nil_right]
  norm_num
  refine ⟨by simp, ?_⟩
  norm_num [List.filterMap_cons]

/-! ### Interval estimation -/

theorem listMinQ_eq_none_iff (l : List ℚ) : listMinQ l = none ↔ l = [] := by
  cases l with
  | nil => simp [listMinQ]
  | cons x t => cases h : listMinQ t <;> simp [listMinQ, h]

theorem listMinQ_mem : ∀ (l : List ℚ) (q : ℚ), listMinQ l = some q → q ∈ l := by
  intro l
  induction l with
  | nil => intro q h; simp [listMinQ] at h
  | cons x t ih =>
    intro q h
    simp only [listMinQ] at h
    cases ht : listMinQ t with
    | none =>
      rw [ht] at h
      simp only [Option.some.injEq] at h
      rw [← h]
      exact List.mem_cons_self x t
    | some m =>
      rw [ht] at h
      simp only [Option.some.injEq] at h
      rcases le_total x m with hle | hle
      · rw [← h, min_eq_left hle]
        exact List.mem_cons_self x t
      · rw [← h, min_eq_right hle]
        exact List.mem_cons_of_mem x (ih m ht)

theorem listMinQ_le : ∀ (l : List ℚ) (q : ℚ), listMinQ l = some q → ∀ x ∈ l, q ≤ x := by
  intro l
  induction l with
  | nil => intro q h; simp [listMinQ] at h
  | cons y t ih =>
    intro q h x hx
    simp only [listMinQ] at h
    cases ht : listMinQ t with
    | none =>
      have htn : t = [] := (listMinQ_eq_none_iff t).mp ht
      rw [ht] at h
      simp only [Option.some.injEq] at h
      subst htn
      rcases List.mem_cons.mp hx with hxy | hxt
      · rw [← h, hxy]
      · simp at hxt
    | some m =>
      rw [ht] at h
      simp only [Option.some.injEq] at h
      rcases List.mem_cons.mp hx with hxy | hxt
      · rw [← h, hxy]
        exact min_le_left _ _
      · exact le_trans (le_trans (h ▸ min_le_right y m) (ih m ht x hxt)) (le_refl x)

theorem seriesStats_interval_none (ts : Timeseries) (ws : List (ℤ × ℤ)) (counts : List ℕ)
    (hdecl : ts.declaredInterval = none) :
    (seriesStats ts ws counts).interval = listMinQ (intervalCandidates ws counts) := by
  dsimp only [seriesStats]
  rw [hdecl]

theorem seriesStats_undef (ts : Timeseries) (ws : List (ℤ × ℤ)) (counts : List ℕ) :
    (seriesStats ts ws counts).undefined_interval = ts.declaredInterval.isNone := rfl

/-! ### C2 counterexample fixtures: three samples over two days -/

/-- C2 fixture: range start 2020-01-01T00:00Z. -/
def c2Start : DateTime := ⟨2020, 1, 1, 0, 0, 0⟩

/-- C2 fixture: range end 2020-01-03T00:00Z. -/
def c2End : DateTime := ⟨2020, 1, 3, 0, 0, 0⟩

/-- C2 fixture: a series with no declared interval. -/
def c2Series : Timeseries := ⟨7, "TS", none⟩

/-- C2 fixture: samples at Jan 1 00:00, Jan 2 00:00 and Jan 2 12:00. -/
def c2Store : Store := fun i _ => if i = 7 then [1577836800, 1577923200, 1577966400] else []

/-- C2 fixture: the month-grid report for the series (one bucket of
172800 s holding all 3 samples, estimated interval 57600). -/
def c2RepMonth : SeriesReport :=
  ⟨"TS", [3], 3, 3, some 57600, true, [some 3], [some 1], some 1⟩

/-- C2 fixture: the day-grid report for the same data (counts `[1, 2]`,
estimated interval `86400 / 2 = 43200`). -/
def c2RepDay : SeriesReport :=
  ⟨"TS", [1, 2], 3, 3/2, some 43200, true, [some 2, some 2], [some (1/2), some 1], some (3/4)⟩

theorem c2MonthEval :
    compute_completeness c2Start c2End [c2Series] 1 1 .month c2Store
      = .ok ⟨[1577836800], [(7, c2RepMonth)]⟩ := by
  unfold compute_completeness
  rw [if_neg (by decide)]
  dsimp only
  have hbs : bucketStarts c2Start c2End 1 .month = [1577836800] := by decide
  rw [hbs]
  have hws : windows c2Start.toSec c2End.toSec [1577836800] = [(1577836800, 1578009600)] := by
    decide
  rw [hws]
  have hbc : bucketCounts [(1577836800, 1578009600)] (c2Store 7 1) = [3] := by decide
  simp only [List.map_cons, List.map_nil]
  rw [show c2Series.id = 7 from rfl]
  rw [hbc]
  simp only [Except.ok.injEq, Report.mk.injEq]
  refine ⟨trivial, ?_⟩
  simp only [List.cons.injEq, and_true, Prod.mk.injEq, true_and]
  unfold seriesStats intervalCandidates c2Series c2RepMonth
  simp only [List.map_cons, List.map_nil, List.zip_cons_cons, List.zip_nil_right]
  norm_num [listMinQ]
  refine ⟨by simp, ?_⟩
  norm_num [List.filterMap_cons]

theorem c2DayEval :
    compute_completeness c2Start c2End [c2Series] 1 1 .day c2Store
      = .ok ⟨[1577836800, 1577923200], [(7, c2RepDay)]⟩ := by
  unfold compute_completeness
  rw [if_neg (by decide)]
  dsimp only
  have hbs : bucketStarts c2Start c2End 1 .day = [1577836800, 1577923200] := by decide
  rw [hbs]
  have hws : windows c2Start.toSec c2End.toSec [1577836800, 1577923200]
      = [(1577836800, 1577923200), (1577923200, 1578009600)] := by decide
  rw [hws]
  have hbc : bucketCounts [(1577836800, 1577923200), (1577923200, 1578009600)] (c2Store 7 1)
      = [1, 2] := by decide
  simp only [List.map_cons, List.map_nil]
  rw [show c2Series.id = 7 from rfl]
  rw [hbc]
  simp only [Except.ok.injEq, Report.mk.injEq]
  refine ⟨trivial, ?_⟩
  simp only [List.cons.injEq, and_true, Prod.mk.injEq, true_and]
  unfold seriesStats intervalCandidates c2Series c2RepDay
  simp only [List.map_cons, List.map_nil, List.zip_cons_cons, List.zip_nil_right]
  norm_num [listMinQ, min_def]
  refine ⟨by simp, ?_⟩
  norm_num [List.filterMap_cons]

/-- C2 (corrected), counterexample: for a series without a declared
interval, three samples at Jan 1 00:00, Jan 2 00:00 and Jan 2 12:00 over
`[2020-01-01, 2020-01-03)` give an estimated interval of 57600 s under
the month grid but 43200 s under the day grid — the estimate depends on
the bucket unit — and neither equals the mean inter-sample gap 64800 s
claimed by the spec. -/
theorem C2_counterexample :
    compute_completeness c2Start c2End [c2Series] 1 1 .month c2Store
      = .ok ⟨[1577836800], [(7, c2RepMonth)]⟩
    ∧ compute_completeness c2Start c2End [c2Series] 1 1 .day c2Store
      = .ok ⟨[1577836800, 1577923200], [(7, c2RepDay)]⟩
    ∧ c2RepMonth.interval = some 57600
    ∧ c2RepDay.interval = some 43200
    ∧ c2RepMonth.interval ≠ c2RepDay.interval
    ∧ (((1577923200 - 1577836800 : ℚ) + (1577966400 - 1577923200)) / 2 = 64800)
    ∧ c2RepMonth.interval ≠ some 64800
    ∧ c2RepDay.interval ≠ some 64800 := by
  refine ⟨c2MonthEval, c2DayEval, rfl, rfl, ?_, by norm_num, ?_, ?_⟩
  · unfold c2RepMonth c2RepDay
    simp only [Option.some.injEq]
    norm_num
  · unfold c2RepMonth
    simp only [ne_eq, Option.some.injEq]
    norm_num
  · unfold c2RepDay
    simp only [ne_eq, Option.some.injEq]
    norm_num

/-- C2 (corrected, amended): for a series without a declared interval the
engine reports `undefined_interval = True` and estimates the interval not
as the mean inter-sample gap but from the per-bucket counts: `None` when
every bucket is empty, and otherwise the minimum over buckets with a
nonzero count of `bucket_duration / count` — a quantity that can depend
on the bucket unit and multiplier chosen. -/
theorem C2_amended_interval_estimation (start endd : DateTime) (tsl : List Timeseries)
    (dataState mult : ℕ) (unit : BucketUnit) (store : Store) (r : Report)
    (hok : compute_completeness start endd tsl dataState mult unit store = .ok r) :
    ∀ ts ∈ tsl, ts.declaredInterval = none →
      ((ts.id, seriesStats ts
          (windows start.toSec endd.toSec (bucketStarts start endd mult unit))
          (bucketCounts (windows start.toSec endd.toSec (bucketStarts start endd mult unit))
            (store ts.id dataState))) ∈ r.timeseries)
      ∧ (seriesStats ts
          (windows start.toSec endd.toSec (bucketStarts start endd mult unit))
          (bucketCounts (windows start.toSec endd.toSec (bucketStarts start endd mult unit))
            (store ts.id dataState))).undefined_interval = true
      ∧ ((seriesStats ts
          (windows start.toSec endd.toSec (bucketStarts start endd mult unit))
          (bucketCounts (windows start.toSec endd.toSec (bucketStarts start endd mult unit))
            (store ts.id dataState))).interval = none
        ↔ intervalCandidates
            (windows start.toSec endd.toSec (bucketStarts start endd mult unit))
            (bucketCounts (windows start.toSec endd.toSec (bucketStarts start endd mult unit))
              (store ts.id dataState)) = [])
      ∧ (∀ q, (seriesStats ts
          (windows start.toSec endd.toSec (bucketStarts start endd mult unit))
          (bucketCounts (windows start.toSec endd.toSec (bucketStarts start endd mult unit))
            (store ts.id dataState))).interval = some q →
          q ∈ intervalCandidates
              (windows start.toSec endd.toSec (bucketStarts start endd mult unit))
              (bucketCounts (windows start.toSec endd.toSec (bucketStarts start endd mult unit))
                (store ts.id dataState))
          ∧ ∀ x ∈ intervalCandidates
              (windows start.toSec endd.toSec (bucketStarts start endd mult unit))
              (bucketCounts (windows start.toSec endd.toSec (bucketStarts start endd mult unit))
                (store ts.id dataState)), q ≤ x) := by
  intro ts hts hdecl
  by_cases hm : mult = 0
  · rw [compute_completeness, if_pos hm] at hok
    exact absurd hok (by simp)
  · rw [compute_completeness, if_neg hm] at hok
    simp only [Except.ok.injEq] at hok
    refine ⟨?_, ?_, ?_, ?_⟩
    · rw [← hok]
      simp only [List.mem_map]
      exact ⟨ts, hts, rfl⟩
    · rw [seriesStats_undef, hdecl]
      rfl
    · rw [seriesStats_interval_none _ _ _ hdecl, listMinQ_eq_none_iff]
    · intro q hq
      rw [seriesStats_interval_none _ _ _ hdecl] at hq
      exact ⟨listMinQ_mem _ q hq, listMinQ_le _ q hq⟩

/-- Witness for the amended C2 at the month-grid fixture. -/
theorem C2_amended_witness :
    (seriesStats c2Series
        (windows c2Start.toSec c2End.toSec (bucketStarts c2Start c2End 1 .month))
        (bucketCounts (windows c2Start.toSec c2End.toSec (bucketStarts c2Start c2End 1 .month))
          (c2Store c2Series.id 1))).undefined_interval = true :=
  ((C2_amended_interval_estimation c2Start c2End [c2Series] 1 1 .month c2Store
      ⟨[1577836800], [(7, c2RepMonth)]⟩ c2MonthEval) c2Series
    (List.mem_singleton.mpr rfl) rfl).2.1
